import Mathlib

/-!
# Verification of the member-import module

Shallow embedding of the member-import pipeline of the `goodbox` repository
(`src/server/src/services/email.ts`, import router part): field normalizers
(`parseDate`, `normalizeMaritalStatus`, `normalizeMemberStatus`), the column
mapper (`columnMappings` / `normalizeColumnName`), the tabular extractor
(`parseExcelOrCsv`), the heuristic text extractor (`parseTextToMembers`),
the duplicate matcher (`checkDuplicates`), and the commit endpoint
(`router.post('/:importId/commit')`).

Modelling conventions:
* JavaScript strings are Lean `String`s; `undefined`/`null`-able values are
  `Option`s; a spreadsheet cell (`any` in the source) is the sum `Cell`.
* The server process timezone is fixed to UTC, so `new Date(s)` (local time)
  followed by `toISOString()` round-trips the parsed calendar components.
* Machine integers do not occur: all counts and date components are `Nat`.
* Calls into the member directory (`prisma.member.*`) act on an explicit
  in-memory directory (`List Member`); run-time directory failures
  (the `catch` in the commit loop) are injected by an explicit per-row
  failure oracle.
-/

namespace Goodbox

/-! ## Calendar arithmetic

Proleptic Gregorian calendar, used to model Excel date serials
(`XLSX.SSF.parse_date_code`) and the JavaScript `Date` object.
`daysFromCivil`/`civilFromDays` convert between a calendar date and a day
count measured from 0000-03-01 (a shifted epoch keeping everything in `Nat`).
-/

def isLeapYear (y : Nat) : Bool :=
  (y % 4 == 0 && y % 100 != 0) || y % 400 == 0

def daysInMonth (y m : Nat) : Nat :=
  if m == 2 then (if isLeapYear y then 29 else 28)
  else if m == 4 || m == 6 || m == 9 || m == 11 then 30
  else 31

/-- A calendar date: year, month (1–12), day (1–31). -/
structure CalDate where
  y : Nat
  m : Nat
  d : Nat
deriving Repr, DecidableEq

def validDate (y m d : Nat) : Bool :=
  1 ≤ m && m ≤ 12 && 1 ≤ d && d ≤ daysInMonth y m

/-- Day count of a civil date, measured from 0000-03-01 (requires `y ≥ 1`). -/
def daysFromCivil (y m d : Nat) : Nat :=
  let yAdj : Nat := if m ≤ 2 then y - 1 else y
  let era : Nat := yAdj / 400
  let yoe : Nat := yAdj % 400
  let mShift : Nat := if m > 2 then m - 3 else m + 9
  let doy : Nat := (153 * mShift + 2) / 5 + d - 1
  let doe : Nat := yoe * 365 + yoe / 4 - yoe / 100 + doy
  era * 146097 + doe

/-- Civil date of a day count measured from 0000-03-01. -/
def civilFromDays (z : Nat) : CalDate :=
  let era : Nat := z / 146097
  let doe : Nat := z % 146097
  let yoe : Nat := (doe - doe / 1460 + doe / 36524 - doe / 146096) / 365
  let doy : Nat := doe - (365 * yoe + yoe / 4 - yoe / 100)
  let mp : Nat := (5 * doy + 2) / 153
  let d : Nat := doy - (153 * mp + 2) / 5 + 1
  let m : Nat := if mp < 10 then mp + 3 else mp - 9
  let y : Nat := yoe + era * 400
  { y := if m ≤ 2 then y + 1 else y, m := m, d := d }

/-! ## Excel serial dates: `XLSX.SSF.parse_date_code`

The SSF 1900 date system: serial 1 is 1900-01-01, serial 60 is the
historically nonexistent 1900-02-29 (the Lotus leap-year bug), serials
above 60 are offset by one day accordingly; serials above 2958465
(9999-12-31) are rejected.  Only whole-day (integer) serials are modelled;
fractional time-of-day parts never arise in the claims under study. -/

def ssfParseDateCode (n : Nat) : Option CalDate :=
  if n > 2958465 then none
  else if n == 60 then some ⟨1900, 2, 29⟩
  else if n < 60 then some (civilFromDays (daysFromCivil 1899 12 31 + n))
  else some (civilFromDays (daysFromCivil 1899 12 30 + n))

/-! ## The JavaScript `Date` model -/

def pad2 (n : Nat) : String :=
  if n < 10 then "0" ++ toString n else toString n

def pad4 (n : Nat) : String :=
  if n < 10 then "000" ++ toString n
  else if n < 100 then "00" ++ toString n
  else if n < 1000 then "0" ++ toString n
  else toString n

/-! String primitives, re-implemented by structural recursion on the
character list so that closed terms evaluate inside the kernel; on the
ASCII data handled by this module they agree with the JavaScript
`trim`, `toLowerCase`, `split` and `includes` they model. -/

/-- JavaScript `trim`: strip leading and trailing whitespace. -/
def jsTrim (s : String) : String :=
  ⟨((s.data.dropWhile Char.isWhitespace).reverse.dropWhile
      Char.isWhitespace).reverse⟩

/-- JavaScript `toLowerCase` on the ASCII range. -/
def jsToLower (s : String) : String :=
  ⟨s.data.map Char.toLower⟩

/-- Split on every occurrence of a single separator character, keeping
empty pieces (JavaScript `split`). -/
def splitOnCharList (sep : Char) : List Char → List (List Char)
  | [] => [[]]
  | c :: rest =>
    let r := splitOnCharList sep rest
    if c == sep then [] :: r
    else
      match r with
      | h :: t => (c :: h) :: t
      | [] => [[c]]

def splitOnChar (sep : Char) (s : String) : List String :=
  (splitOnCharList sep s.data).map fun l => ⟨l⟩

/-- Numeric value of a digit string. -/
def digitsValueAux : Nat → List Char → Nat
  | acc, [] => acc
  | acc, c :: rest => digitsValueAux (acc * 10 + (c.toNat - 48)) rest

def digitsValue (cs : List Char) : Nat :=
  digitsValueAux 0 cs

/-- JavaScript `includes`: substring containment. -/
def containsSub (s pat : String) : Bool :=
  let rec go : List Char → Bool
    | [] => pat.data.isEmpty
    | l@(_ :: rest) => pat.data.isPrefixOf l || go rest
  go s.data

/-- A fixed-width all-digit field: `some` its value when `s` consists of
exactly `len` decimal digits. -/
def digitsExact (len : Nat) (s : String) : Option Nat :=
  if s.data.length == len && s.data.all Char.isDigit then
    some (digitsValue s.data)
  else none

/-- Modelled fragment of the V8 date-string parser: the numeric shapes
`YYYY-MM-DD` (ISO, read year-month-day) and `NN/NN/NNNN`, `NN-NN-NNNN`,
`NN.NN.NNNN` (legacy parser, which reads the first two components as
month then day regardless of the separator).  Component triples that do
not form a valid calendar date, and every other string shape (whose
engine behavior the claims never exercise), are mapped to `none`. -/
def jsDateShape (s : String) : Option CalDate :=
  let viaSep (sep : Char) : Option CalDate :=
    match splitOnChar sep s with
    | [a, b, c] =>
      match digitsExact 4 a, digitsExact 2 b, digitsExact 2 c with
      | some y, some m, some d => some ⟨y, m, d⟩   -- ISO year-month-day
      | _, _, _ =>
        match digitsExact 2 a, digitsExact 2 b, digitsExact 4 c with
        | some m, some d, some y => some ⟨y, m, d⟩ -- legacy month-day-year
        | _, _, _ => none
    | _ => none
  (viaSep '-').orElse fun _ => (viaSep '/').orElse fun _ => viaSep '.'

/-- Model of `new Date(s)` under a UTC process timezone: parse, then reject
calendar-invalid component triples (`isNaN(date.getTime())`). -/
def jsDate (s : String) : Option CalDate :=
  (jsDateShape s).bind fun dt =>
    if validDate dt.y dt.m dt.d then some dt else none

/-- Model of `date.toISOString().split('T')[0]` (timezone UTC). -/
def isoDateString (dt : CalDate) : String :=
  pad4 dt.y ++ "-" ++ pad2 dt.m ++ "-" ++ pad2 dt.d

/-! ## Cells and `parseDate` -/

/-- A raw spreadsheet cell / JSON value as seen by the normalizers. -/
inductive Cell where
  | str (s : String)
  | num (n : Nat)
  | empty
deriving Repr, DecidableEq

/-- JavaScript truthiness of a cell (`!value`). -/
def Cell.truthy : Cell → Bool
  | .str s => s ≠ ""
  | .num n => n ≠ 0
  | .empty => false

/-- Model of `String(value ?? '')`. -/
def cellToString : Cell → String
  | .str s => s
  | .num n => toString n
  | .empty => ""

/-- Source `asTrimmedString`: `String(value ?? '').trim()`. -/
def asTrimmedString (value : Cell) : String :=
  jsTrim (cellToString value)

/-- Shape test for the source regex `^(\d{4})-(\d{2})-(\d{2})$`. -/
def isoShape (s : String) : Bool :=
  match splitOnChar '-' s with
  | [a, b, c] => (digitsExact 4 a).isSome && (digitsExact 2 b).isSome
      && (digitsExact 2 c).isSome
  | _ => false

/-- Shape test for `^(\d{2})<sep>(\d{2})<sep>(\d{4})$`. -/
def twoTwoFourShape (sep : Char) (s : String) : Bool :=
  match splitOnChar sep s with
  | [a, b, c] => (digitsExact 2 a).isSome && (digitsExact 2 b).isSome
      && (digitsExact 4 c).isSome
  | _ => false

/-- Source `parseDate`.  Falsy input returns `undefined`; a numeric
cell goes through `XLSX.SSF.parse_date_code` and is formatted as
``${date.y}-${pad(date.m)}-${pad(date.d)}``; a string is trimmed, an exact
`YYYY-MM-DD` match is returned verbatim, the `MM/DD/YYYY`, `MM-DD-YYYY` and
`DD.MM.YYYY` patterns are handed to `new Date(trimmed)` (as is, in the final
fallback, any other string), whose valid result is rendered with
`toISOString`. -/
def parseDate (value : Cell) : Option String :=
  if !value.truthy then none
  else
    match value with
    | .num n =>
      (ssfParseDateCode n).map fun dt =>
        toString dt.y ++ "-" ++ pad2 dt.m ++ "-" ++ pad2 dt.d
    | .str s =>
      let trimmed := jsTrim s
      if isoShape trimmed then some trimmed
      else if twoTwoFourShape '/' trimmed || twoTwoFourShape '-' trimmed
          || twoTwoFourShape '.' trimmed then
        -- pattern matched: `new Date(trimmed)`; on an invalid result the
        -- source falls through to the identical general parse below
        (jsDate trimmed).map isoDateString
      else
        (jsDate trimmed).map isoDateString
    | .empty => none

/-! ## Column mapper -/

/-- Canonical record fields: `keyof ImportedMember` in the source. -/
inductive Field where
  | firstName | lastName | email | phone | address | birthday
  | maritalStatus | status | cellGroupName | broughtBy | notes
deriving Repr, DecidableEq

/-- The `columnMappings` table, in source order (keys are unique). -/
def columnMappings : List (String × Field) :=
  [ ("firstname", .firstName), ("first_name", .firstName),
    ("first name", .firstName),
    ("lastname", .lastName), ("last_name", .lastName),
    ("last name", .lastName),
    ("email", .email),
    ("phone", .phone), ("telephone", .phone), ("mobile", .phone),
    ("address", .address),
    ("birthday", .birthday), ("birth_date", .birthday),
    ("birthdate", .birthday), ("date of birth", .birthday),
    ("dob", .birthday),
    ("maritalstatus", .maritalStatus), ("marital_status", .maritalStatus),
    ("marital status", .maritalStatus),
    ("status", .status),
    ("cellgroupname", .cellGroupName), ("cell_group_name", .cellGroupName),
    ("cell group name", .cellGroupName), ("cell group", .cellGroupName),
    ("cellgroup", .cellGroupName),
    ("broughtby", .broughtBy), ("brought_by", .broughtBy),
    ("brought by", .broughtBy), ("referred by", .broughtBy),
    ("notes", .notes), ("note", .notes), ("comment", .notes),
    ("comments", .notes) ]

/-- Source `normalizeColumnName`: `columnMappings[name.toLowerCase().trim()] || null`. -/
def normalizeColumnName (name : String) : Option Field :=
  columnMappings.lookup (jsTrim (jsToLower name))

/-! ## Enumerations and remaining normalizers -/

inductive MaritalStatus where
  | single | married | undisclosed
deriving Repr, DecidableEq

inductive MemberStatus where
  | pending_approval | active | inactive
deriving Repr, DecidableEq

/-- Source `normalizeMaritalStatus`. -/
def normalizeMaritalStatus (value : Cell) : MaritalStatus :=
  if !value.truthy then .undisclosed
  else
    let normalized := jsTrim (jsToLower (cellToString value))
    if normalized == "single" then .single
    else if normalized == "married" then .married
    else .undisclosed

/-- Model of `s.replace(/\s+/g, '_')`: each maximal whitespace run becomes one `_`. -/
def collapseWhitespaceToUnderscore (s : String) : String :=
  let rec go (inRun : Bool) : List Char → List Char
    | [] => []
    | c :: rest =>
      if c.isWhitespace then
        if inRun then go true rest else '_' :: go true rest
      else c :: go false rest
  ⟨go false s.toList⟩

/-- Source `normalizeMemberStatus`. -/
def normalizeMemberStatus (value : Cell) : MemberStatus :=
  if !value.truthy then .pending_approval
  else
    let normalized :=
      collapseWhitespaceToUnderscore (jsTrim (jsToLower (cellToString value)))
    if normalized == "active" then .active
    else if normalized == "inactive" then .inactive
    else .pending_approval

/-! ## Candidate records and the per-cell dispatch -/

/-- Source `ImportedMember`; only `firstName`/`lastName` are
required (initialised to `''`), every other field is optional. -/
structure ImportedMember where
  firstName : String := ""
  lastName : String := ""
  email : Option String := none
  phone : Option String := none
  address : Option String := none
  birthday : Option String := none
  maritalStatus : Option MaritalStatus := none
  status : Option MemberStatus := none
  cellGroupName : Option String := none
  broughtBy : Option String := none
  notes : Option String := none
deriving Repr, DecidableEq

/-- Source `setOptionalString`: assign the trimmed value when nonempty, else leave
the field unset. -/
def setOptionalString (m : ImportedMember) (field : Field) (value : Cell) :
    ImportedMember :=
  let v := asTrimmedString value
  if v == "" then m
  else
    match field with
    | .email => { m with email := some v }
    | .phone => { m with phone := some v }
    | .address => { m with address := some v }
    | .cellGroupName => { m with cellGroupName := some v }
    | .broughtBy => { m with broughtBy := some v }
    | .notes => { m with notes := some v }
    | _ => m

/-- The `switch (mappedField)` body shared by the tabular and the structured
text extractors. -/
def applyField (m : ImportedMember) (field : Field) (value : Cell) :
    ImportedMember :=
  match field with
  | .firstName => { m with firstName := asTrimmedString value }
  | .lastName => { m with lastName := asTrimmedString value }
  | .email | .phone | .address | .cellGroupName | .broughtBy | .notes =>
    setOptionalString m field value
  | .birthday => { m with birthday := parseDate value }
  | .maritalStatus => { m with maritalStatus := some (normalizeMaritalStatus value) }
  | .status => { m with status := some (normalizeMemberStatus value) }

/-- Source `ParseError`. -/
structure ParseError where
  rowIndex : Nat
  issues : List String
deriving Repr, DecidableEq

/-- Source `ParseResult`. -/
structure ParseResult where
  rows : List ImportedMember
  errors : List ParseError
deriving Repr, DecidableEq

/-! ## Tabular extractor: `parseExcelOrCsv`

The workbook read (`XLSX.readFile` / `sheet_to_json`) is the external
library boundary; the extractor is modelled from the point of its output
`rawData`, a list of rows, each an association list from header name to
cell value in sheet column order (`defval: ''` guarantees every header is
present, so a missing key defaults to the empty-string cell). -/

abbrev RawRow := List (String × Cell)

/-- The required-field validation of both extractors. -/
def rowIssues (m : ImportedMember) : List String :=
  (if m.firstName == "" then ["Missing first name"] else [])
    ++ (if m.lastName == "" then ["Missing last name"] else [])

/-- One data row of `parseExcelOrCsv`: fold the header→field map over the
row's cells. -/
def buildMemberFromRow (fieldMap : List (String × Field)) (row : RawRow) :
    ImportedMember :=
  fieldMap.foldl
    (fun m (entry : String × Field) =>
      applyField m entry.2 ((row.lookup entry.1).getD (.str "")))
    { firstName := "", lastName := "" }

/-- The accumulation loop of `parseExcelOrCsv`, written as structural
recursion: each raw row is mapped to a member, pushed unconditionally, and
contributes one `ParseError` exactly when its issue list is nonempty. -/
def parseRowsLoop (fieldMap : List (String × Field)) :
    Nat → List RawRow → ParseResult
  | _, [] => ⟨[], []⟩
  | i, row :: rest =>
    let member := buildMemberFromRow fieldMap row
    let tail := parseRowsLoop fieldMap (i + 1) rest
    { rows := member :: tail.rows,
      errors :=
        if rowIssues member ≠ [] then
          ⟨i, rowIssues member⟩ :: tail.errors
        else tail.errors }

/-- The header→field map of `parseExcelOrCsv`, built once from the keys of
the first raw row. -/
def excelFieldMap (rawData : List RawRow) : List (String × Field) :=
  match rawData with
  | [] => []
  | first :: _ =>
    (first.map Prod.fst).filterMap fun h =>
      (normalizeColumnName h).map fun f => (h, f)

/-- Source `parseExcelOrCsv`, from the `rawData` boundary on. -/
def parseExcelOrCsv (rawData : List RawRow) : ParseResult :=
  match rawData with
  | [] => ⟨[], []⟩
  | _ :: _ => parseRowsLoop (excelFieldMap rawData) 0 rawData

/-! ## A small backtracking regex interpreter

Used to model verbatim the regular expressions of the heuristic text
extractor.  `Rx.derive` lists every suffix a pattern can leave behind, in
JavaScript backtracking preference order (greedy quantifiers first), so the
head of the list at the leftmost successful start position is exactly the
JavaScript `String.match` result. -/

inductive Rx where
  | eps
  | cls (p : Char → Bool)
  | seq (a b : Rx)
  | plus (p : Char → Bool)
  | opt (r : Rx)

/-- All suffixes reachable by matching `r` at the front of `s`, in
backtracking preference order. -/
def Rx.derive : Rx → List Char → List (List Char)
  | .eps, s => [s]
  | .cls _, [] => []
  | .cls p, c :: rest => if p c then [rest] else []
  | .seq a b, s => (Rx.derive a s).flatMap fun s' => Rx.derive b s'
  | .plus _, [] => []
  | .plus p, c :: rest =>
    if p c then Rx.derive (.plus p) rest ++ [rest] else []
  | .opt r, s => Rx.derive r s ++ [s]
  termination_by r s => (sizeOf r, s.length)
  decreasing_by
    all_goals simp_wf
    all_goals omega

/-- First (preferred) suffix left after matching `r` at the front of `s`. -/
def Rx.matchFront (r : Rx) (s : List Char) : Option (List Char) :=
  (r.derive s).head?

/-- Unanchored leftmost-greedy search, returning the matched substring:
JavaScript `s.match(r)` for a pattern with no anchors. -/
def Rx.search (r : Rx) : List Char → Option String
  | [] => (r.matchFront []).map fun _ => ⟨[]⟩
  | c :: rest =>
    match r.matchFront (c :: rest) with
    | some remaining =>
      some ⟨(c :: rest).take ((c :: rest).length - remaining.length)⟩
    | none => r.search rest

def isUpperAlpha (c : Char) : Bool := 'A' ≤ c && c ≤ 'Z'
def isLowerAlpha (c : Char) : Bool := 'a' ≤ c && c ≤ 'z'
def isWordChar (c : Char) : Bool :=
  ('A' ≤ c && c ≤ 'Z') || ('a' ≤ c && c ≤ 'z') || c.isDigit || c == '_'

/-- Matcher for `^([A-Z][a-z]+)\s+([A-Z][a-z]+)` with its two capture groups.  Each
quantifier's follow set is disjoint from its own character class, so
maximal munch coincides with backtracking. -/
def matchNameStart (s : String) : Option (String × String) :=
  match s.toList with
  | c0 :: rest =>
    if isUpperAlpha c0 then
      let low1 := rest.takeWhile isLowerAlpha
      let rest1 := rest.dropWhile isLowerAlpha
      if low1.isEmpty then none
      else
        let rest2 := rest1.dropWhile Char.isWhitespace
        if rest1.length == rest2.length then none  -- no whitespace: \s+ fails
        else
          match rest2 with
          | c1 :: rest3 =>
            if isUpperAlpha c1 then
              let low2 := rest3.takeWhile isLowerAlpha
              if low2.isEmpty then none
              else some (⟨c0 :: low1⟩, ⟨c1 :: low2⟩)
            else none
          | [] => none
    else none
  | [] => none

/-- The email pattern `[\w.-]+@[\w.-]+\.\w+`. -/
def emailRx : Rx :=
  let wdd : Char → Bool := fun c => isWordChar c || c == '.' || c == '-'
  .seq (.plus wdd) (.seq (.cls (fun c => c == '@'))
    (.seq (.plus wdd) (.seq (.cls (fun c => c == '.')) (.plus isWordChar))))

/-- Pattern for `\d{m}` followed by up to `k` further optional digits: `\d{m,m+k}`. -/
def digitsRange (m k : Nat) : Rx :=
  let rec exact : Nat → Rx
    | 0 => .eps
    | n + 1 => .seq (.cls Char.isDigit) (exact n)
  let rec upTo : Nat → Rx
    | 0 => .eps
    | n + 1 => .opt (.seq (.cls Char.isDigit) (upTo n))
  .seq (exact m) (upTo k)

/-- The phone pattern
`(?:\+?\d{1,3}[-.\s]?)?\(?\d{3}\)?[-.\s]?\d{3}[-.\s]?\d{4}`. -/
def phoneRx : Rx :=
  let sep : Rx := .opt (.cls fun c => c == '-' || c == '.' || c.isWhitespace)
  .seq (.opt (.seq (.opt (.cls (fun c => c == '+')))
        (.seq (digitsRange 1 2) sep)))
    (.seq (.opt (.cls (fun c => c == '(')))
      (.seq (digitsRange 3 0)
        (.seq (.opt (.cls (fun c => c == ')')))
          (.seq sep
            (.seq (digitsRange 3 0)
              (.seq sep (digitsRange 4 0)))))))

/-! ## Heuristic text extractor: `parseTextToMembers` -/

/-- The candidate separators of `separatorPatterns`, in priority order. -/
inductive Sep where
  | tab | comma | spaces | pipe
deriving Repr, DecidableEq

/-- Split on commas followed by an even number of `"` characters — the
lookahead `,(?=(?:[^"]*"[^"]*")*[^"]*$)` holds at a comma exactly when the
remaining suffix contains an even number of quotes. -/
def splitCommasOutsideQuotes (s : String) : List String :=
  let rec go (acc : List Char) : List Char → List String
    | [] => [⟨acc.reverse⟩]
    | c :: rest =>
      if c == ',' && rest.count '"' % 2 == 0 then
        (⟨acc.reverse⟩ : String) :: go [] rest
      else go (c :: acc) rest
  go [] s.toList

theorem dropWhile_length_le {α : Type} (p : α → Bool) (l : List α) :
    (l.dropWhile p).length ≤ l.length := by
  induction l with
  | nil => simp
  | cons c rest ih =>
    simp only [List.dropWhile]
    split
    · exact le_trans ih (by simp)
    · simp

/-- Worker for `splitOnDoubleSpaces`. -/
def splitOnDoubleSpacesGo (acc : List Char) : List Char → List String
  | [] => [⟨acc.reverse⟩]
  | [c] => splitOnDoubleSpacesGo (c :: acc) []
  | c :: c' :: rest =>
    if c.isWhitespace && c'.isWhitespace then
      (⟨acc.reverse⟩ : String)
        :: splitOnDoubleSpacesGo [] ((c' :: rest).dropWhile Char.isWhitespace)
    else splitOnDoubleSpacesGo (c :: acc) (c' :: rest)
  termination_by cs => cs.length
  decreasing_by
    · simp
    · have h := dropWhile_length_le Char.isWhitespace (c' :: rest)
      simp only [List.length_cons] at h ⊢
      omega
    · simp

/-- JavaScript `split(/\s{2,}/)`: each maximal whitespace run of length ≥ 2
separates; a lone whitespace char stays in its part. -/
def splitOnDoubleSpaces (s : String) : List String :=
  splitOnDoubleSpacesGo [] s.toList

def splitBySep : Sep → String → List String
  | .tab, s => splitOnChar '\t' s
  | .comma, s => splitCommasOutsideQuotes s
  | .spaces, s => splitOnDoubleSpaces s
  | .pipe, s => splitOnChar '|' s

def separatorPatterns : List Sep := [.tab, .comma, .spaces, .pipe]

/-- Header candidate parts of a line under a separator: split, trim,
drop empties (`.map(p => p.trim()).filter(p => p)`). -/
def headerParts (sep : Sep) (line : String) : List String :=
  ((splitBySep sep line).map jsTrim).filter (· ≠ "")

/-- The inner separator loop: the first separator in priority order whose
parts list has length ≥ 2, paired with those parts. -/
def findSeparator (line : String) : Option (Sep × List String) :=
  (separatorPatterns.find? fun sep => (headerParts sep line).length ≥ 2).map
    fun sep => (sep, headerParts sep line)

/-- Whether a (lowercased) line looks like a header. -/
def headerKeyword (line : String) : Bool :=
  containsSub (jsToLower line) "first" || containsSub (jsToLower line) "name"
    || containsSub (jsToLower line) "email"

/-- The header scan: walk `i < min(5, lines.length)`; at a keyword line try
the separators; keep scanning if none fits.  Returns the separator, the
header parts and `startIndex = i + 1`. -/
def findHeader (lines : List String) : Option (Sep × List String × Nat) :=
  let rec go (i : Nat) (fuel : Nat) (ls : List String) :
      Option (Sep × List String × Nat) :=
    match fuel, ls with
    | 0, _ => none
    | _, [] => none
    | fuel' + 1, line :: rest =>
      if headerKeyword line then
        match findSeparator line with
        | some (sep, parts) => some (sep, parts, i + 1)
        | none => go (i + 1) fuel' rest
      else go (i + 1) fuel' rest
  go 0 5 lines

/-- The fallback per-line scrape: name by `^([A-Z][a-z]+)\s+([A-Z][a-z]+)`,
then optional email and phone tokens. -/
def fallbackLine (line : String) : Option ImportedMember :=
  (matchNameStart line).map fun (first, last) =>
    let m : ImportedMember := { firstName := first, lastName := last }
    let m := match emailRx.search line.toList with
      | some e => { m with email := some e }
      | none => m
    match phoneRx.search line.toList with
    | some p => { m with phone := some p }
    | none => m

/-- One structured data row: split with the header separator, trim each part
(no empty filtering here), then apply the positional field map; a missing
part reads as `''` (`parts[idx] || ''`). -/
def buildMemberFromParts (fieldMap : List (Nat × Field)) (parts : List String) :
    ImportedMember :=
  fieldMap.foldl
    (fun m (entry : Nat × Field) =>
      applyField m entry.2 (.str (jsTrim (parts.getD entry.1 ""))))
    { firstName := "", lastName := "" }

/-- The structured data loop of `parseTextToMembers`: `rowIndex` of an error
entry is the zero-based offset from `startIndex`. -/
def parseTextRowsLoop (sep : Sep) (fieldMap : List (Nat × Field)) :
    Nat → List String → ParseResult
  | _, [] => ⟨[], []⟩
  | i, line :: rest =>
    let parts := (splitBySep sep line).map jsTrim
    let member := buildMemberFromParts fieldMap parts
    let tail := parseTextRowsLoop sep fieldMap (i + 1) rest
    { rows := member :: tail.rows,
      errors :=
        if rowIssues member ≠ [] then
          ⟨i, rowIssues member⟩ :: tail.errors
        else tail.errors }

/-- Source `parseTextToMembers`. -/
def parseTextToMembers (text : String) : ParseResult :=
  let lines :=
    ((splitOnChar '\n' text).map jsTrim).filter (fun l => l.data.length > 0)
  match findHeader lines with
  | some (sep, headerRow, startIndex) =>
    let fieldMap : List (Nat × Field) :=
      (headerRow.enum).filterMap fun (idx, col) =>
        (normalizeColumnName col).map fun f => (idx, f)
    parseTextRowsLoop sep fieldMap 0 (lines.drop startIndex)
  | none =>
    let rows := lines.filterMap fallbackLine
    if rows.isEmpty then
      ⟨[], [⟨0, ["Could not parse any member records from text"]⟩]⟩
    else ⟨rows, []⟩

/-! ## The member directory

Directory rows as touched by this module.  A stored `birthday` (a SQL
date) is modelled by its canonical `YYYY-MM-DD` string: `new Date` is
injective on such strings, so equality of the stored date and
`new Date(row.birthday)` is equality of the canonical strings. -/

structure Member where
  id : Nat
  firstName : String
  lastName : String
  email : Option String := none
  phone : Option String := none
  address : Option String := none
  birthday : Option String := none
  maritalStatus : MaritalStatus := .undisclosed
  status : MemberStatus := .pending_approval
  cellGroupId : Option Nat := none
  broughtBy : Option String := none
  notes : Option String := none
deriving Repr, DecidableEq

/-- JavaScript truthiness of an optional string field (`if (row.email)`):
present and nonempty. -/
def optTruthy : Option String → Bool
  | some s => s ≠ ""
  | none => false

/-- Model of `prisma.member.findFirst({ where: { email } })`. -/
def findByEmail (db : List Member) (e : String) : Option Member :=
  db.find? fun m => m.email == some e

/-- Model of `prisma.member.findFirst({ where: { phone } })`. -/
def findByPhone (db : List Member) (p : String) : Option Member :=
  db.find? fun m => m.phone == some p

/-- Model of `prisma.member.findFirst({ where: { firstName, lastName, birthday } })`. -/
def findByNameBirthday (db : List Member) (f l b : String) : Option Member :=
  db.find? fun m => m.firstName == f && m.lastName == l && m.birthday == some b

/-! ## Duplicate matcher: `checkDuplicates` -/

inductive MatchType where
  | email | phone | name_birthday
deriving Repr, DecidableEq

/-- Source `DuplicateInfo`. -/
structure DuplicateInfo where
  isMatch : Bool
  matchedMemberId : Option Nat := none
  matchType : Option MatchType := none
  matchedMemberName : Option String := none
deriving Repr, DecidableEq

/-- The three guarded directory probes of `checkDuplicates`, in source
order. -/
def emailProbe (db : List Member) (row : ImportedMember) : Option Member :=
  if optTruthy row.email then findByEmail db (row.email.getD "") else none

def phoneProbe (db : List Member) (row : ImportedMember) : Option Member :=
  if optTruthy row.phone then findByPhone db (row.phone.getD "") else none

def nameBirthdayProbe (db : List Member) (row : ImportedMember) :
    Option Member :=
  if optTruthy row.birthday then
    findByNameBirthday db row.firstName row.lastName (row.birthday.getD "")
  else none

def matchInfo (t : MatchType) (m : Member) : DuplicateInfo :=
  { isMatch := true, matchedMemberId := some m.id, matchType := some t,
    matchedMemberName := some (m.firstName ++ " " ++ m.lastName) }

/-- The per-row body of `checkDuplicates`: start from `{isMatch: false}`,
overwrite by email, then (if still no match) by phone, then (if still no
match) by name+birthday. -/
def dupInfoFor (db : List Member) (row : ImportedMember) : DuplicateInfo :=
  let info : DuplicateInfo := { isMatch := false }
  let info := match emailProbe db row with
    | some m => matchInfo .email m
    | none => info
  let info := if !info.isMatch then
      match phoneProbe db row with
      | some m => matchInfo .phone m
      | none => info
    else info
  if !info.isMatch then
    match nameBirthdayProbe db row with
    | some m => matchInfo .name_birthday m
    | none => info
  else info

/-- Source `ImportedMemberWithDuplicate`. -/
structure ImportedMemberWithDuplicate extends ImportedMember where
  duplicateInfo : DuplicateInfo
deriving Repr, DecidableEq

/-- Source `checkDuplicates`. -/
def checkDuplicates (db : List Member) (rows : List ImportedMember) :
    List ImportedMemberWithDuplicate :=
  rows.map fun row => { row with duplicateInfo := dupInfoFor db row }

/-! ## Commit engine: the loop of `router.post('/:importId/commit')` -/

/-- Model of `row.email || null`: an empty string collapses to absent. -/
def orNull (o : Option String) : Option String :=
  match o with
  | some s => if s == "" then none else some s
  | none => none

/-- Model of `cellGroupMap.get(row.cellGroupName.toLowerCase()) || null` over the
name→id map built from `prisma.cellGroup.findMany()`; `|| null` also maps a
falsy id 0 to `null`. -/
def resolveCellGroupId (cellGroups : List (String × Nat))
    (row : ImportedMember) : Option Nat :=
  if optTruthy row.cellGroupName then
    match cellGroups.lookup (jsToLower (row.cellGroupName.getD "")) with
    | some gid => if gid == 0 then none else some gid
    | none => none
  else none

/-- The `memberData` literal of the commit loop, applied to a member id. -/
def memberData (cellGroups : List (String × Nat)) (row : ImportedMember)
    (id : Nat) : Member :=
  { id := id,
    firstName := row.firstName,
    lastName := row.lastName,
    email := orNull row.email,
    phone := orNull row.phone,
    address := orNull row.address,
    birthday := orNull row.birthday,
    maritalStatus := (row.maritalStatus).getD .undisclosed,
    status := (row.status).getD .pending_approval,
    cellGroupId := resolveCellGroupId cellGroups row,
    broughtBy := orNull row.broughtBy,
    notes := orNull row.notes }

/-- Commit-time re-resolution: `email > phone > name+birthday`, each probe
guarded by field truthiness, each `findFirst` taking the first directory
row that satisfies the criterion. -/
def findExistingMember (db : List Member) (row : ImportedMember) :
    Option Member :=
  match emailProbe db row with
  | some m => some m
  | none =>
    match phoneProbe db row with
    | some m => some m
    | none => nameBirthdayProbe db row

/-- Model of `prisma.member.update({ where: { id }, data })`. -/
def updateMember (db : List Member) (id : Nat) (data : Nat → Member) :
    List Member :=
  db.map fun m => if m.id == id then data m.id else m

/-- Which of the three counters a processed row incremented. -/
inductive RowOutcome where
  | createdRow | updatedRow | skippedRow
deriving Repr, DecidableEq

/-- Mutable state of one commit call: the directory, the fresh-id counter,
the three counters and the error list of the source loop, plus a ghost
`trace` recording, per processed row, which counter that row incremented
(pure instrumentation: no source behavior depends on it, and the counters
are provably its tallies). -/
structure CommitState where
  db : List Member
  nextId : Nat
  created : Nat := 0
  updated : Nat := 0
  skipped : Nat := 0
  commitErrors : List String := []
  trace : List RowOutcome := []
deriving Repr, DecidableEq

/-- Run-time failures of the directory calls inside the per-row `try`
(write errors, constraint violations, …) are environmental; they are
injected by a failure oracle giving, for row index `i`, either `none`
(that row's directory operations all succeed) or `some msg` (some
operation throws `msg` before any write lands — every throwing call in
the row body precedes or is the row's single write). -/
abbrev FailOracle := Nat → Option String

/-- One iteration of the commit loop at row index `i`. -/
def commitRow (cellGroups : List (String × Nat)) (fail : FailOracle)
    (skippedSet : Nat → Bool) (st : CommitState) (i : Nat)
    (row : ImportedMember) : CommitState :=
  if skippedSet i then
    { st with skipped := st.skipped + 1, trace := st.trace ++ [.skippedRow] }
  else if row.firstName == "" || row.lastName == "" then
    { st with
      skipped := st.skipped + 1,
      commitErrors :=
        st.commitErrors ++ ["Row " ++ toString (i + 1)
          ++ ": Missing first or last name"],
      trace := st.trace ++ [.skippedRow] }
  else
    match fail i with
    | some msg =>
      { st with
        skipped := st.skipped + 1,
        commitErrors :=
          st.commitErrors ++ ["Row " ++ toString (i + 1) ++ ": " ++ msg],
        trace := st.trace ++ [.skippedRow] }
    | none =>
      match findExistingMember st.db row with
      | some existing =>
        { st with
          db := updateMember st.db existing.id (memberData cellGroups row),
          updated := st.updated + 1, trace := st.trace ++ [.updatedRow] }
      | none =>
        { st with
          db := st.db ++ [memberData cellGroups row st.nextId],
          nextId := st.nextId + 1,
          created := st.created + 1, trace := st.trace ++ [.createdRow] }

/-- The commit loop `for (let i = 0; i < rows.length; i++)`, starting at
index `i`. -/
def commitLoop (cellGroups : List (String × Nat)) (fail : FailOracle)
    (skippedSet : Nat → Bool) : Nat → CommitState → List ImportedMember →
    CommitState
  | _, st, [] => st
  | i, st, row :: rest =>
    commitLoop cellGroups fail skippedSet (i + 1)
      (commitRow cellGroups fail skippedSet st i row) rest

/-! ## The commit endpoint -/

inductive ImportStatus where
  | pending | parsed | committed | failed
deriving Repr, DecidableEq

/-- The fields of an import session record used by the commit endpoint. -/
structure ImportRecord where
  status : ImportStatus
  parsedData : List ImportedMember
  filePath : String
deriving Repr, DecidableEq

/-- Server-side state touched by the commit endpoint: the sessions table,
the member directory with its fresh-id counter, the cell groups, and the
set of files on disk. -/
structure ServerState where
  imports : List (Nat × ImportRecord)
  members : List Member
  nextMemberId : Nat
  cellGroups : List (String × Nat)
  files : List String
deriving Repr, DecidableEq

/-- The commit endpoint's possible responses. -/
inductive CommitResponse where
  /-- Status 404, `Import not found`. -/
  | importNotFound
  /-- Status 400, `Import must be parsed before committing`. -/
  | notParsed
  /-- Status 400, `No data to import`. -/
  | noData
  /-- Status 200 with the aggregated `CommitResult`. -/
  | committed (created updated skipped : Nat) (commitErrors : List String)
deriving Repr, DecidableEq

/-- Update one session record in the sessions table. -/
def setImportStatus (imports : List (Nat × ImportRecord)) (id : Nat)
    (status : ImportStatus) : List (Nat × ImportRecord) :=
  imports.map fun entry =>
    if entry.1 == id then (entry.1, { entry.2 with status := status })
    else entry

/-- Source `router.post('/:importId/commit')`: look up the session,
reject when missing or not `parsed`, take the caller-supplied rows when
present (else the stored parsed rows; `DuplicateInfo` stripping leaves an
`ImportedMember` either way), reject an empty row set, run the loop, mark
the session `committed` and delete the uploaded file (`unlinkSync`,
failures ignored — the deletion itself is modelled as succeeding). -/
def commitEndpoint (fail : FailOracle) (sys : ServerState) (importId : Nat)
    (providedRows : Option (List ImportedMember))
    (skippedIndices : List Nat) : CommitResponse × ServerState :=
  match sys.imports.lookup importId with
  | none => (.importNotFound, sys)
  | some importRecord =>
    if importRecord.status ≠ .parsed then (.notParsed, sys)
    else
      let rows := providedRows.getD importRecord.parsedData
      if rows.length == 0 then (.noData, sys)
      else
        let skippedSet : Nat → Bool := fun i => skippedIndices.contains i
        let st0 : CommitState :=
          { db := sys.members, nextId := sys.nextMemberId }
        let st := commitLoop sys.cellGroups fail skippedSet 0 st0 rows
        let sys' : ServerState :=
          { sys with
            imports := setImportStatus sys.imports importId .committed,
            members := st.db,
            nextMemberId := st.nextId,
            files := sys.files.filter (· ≠ importRecord.filePath) }
        (.committed st.created st.updated st.skipped st.commitErrors, sys')

instance : Inhabited ImportedMember := ⟨{}⟩

/-- Whether the commit loop counts row `i` as skipped: marked in the skip
set, or missing a name, or hit by a directory failure. -/
def rowSkips (fail : FailOracle) (skippedSet : Nat → Bool) (i : Nat)
    (row : ImportedMember) : Bool :=
  skippedSet i || row.firstName == "" || row.lastName == ""
    || (fail i).isSome

/-! ## Concrete fixtures used by the witness theorems -/

def annLee : Member :=
  { id := 1, firstName := "Ann", lastName := "Lee",
    email := some "ann@x.com", phone := some "555-111-2222",
    birthday := some "1990-01-15" }

def sampleDb : List Member := [annLee]

/-- A row whose email and phone both match `annLee`. -/
def rowAnnEmail : ImportedMember :=
  { firstName := "Ann", lastName := "Lee", email := some "ann@x.com",
    phone := some "555-111-2222" }

/-- A row matching no directory entry. -/
def rowNewGuy : ImportedMember :=
  { firstName := "New", lastName := "Guy", email := some "new@x.com" }

def sampleImport : ImportRecord :=
  { status := .parsed, parsedData := [rowNewGuy], filePath := "up1" }

def sampleSys : ServerState :=
  { imports := [(7, sampleImport)],
    members := sampleDb, nextMemberId := 2,
    cellGroups := [("youth group", 3)], files := ["up1"] }

/-! # Theorems -/

/-- C1: the date normalizer is total and returns `none` on failure, and the
`YYYY-MM-DD`, `MM/DD/YYYY`, `MM-DD-YYYY` encodings and the Excel serial of
1990-01-15 all normalize to `"1990-01-15"` — but the fourth supported
encoding `DD.MM.YYYY` does not: `"15.01.1990"` parses to `none` (the
native date parser reads the first dotted component as a month), and a
dotted date with day at most 12, here `"05.01.1990"` (5 January), is
mis-read month-first as `"1990-05-01"`.  The claim that all four string
encodings agree therefore fails on the code. -/
theorem parseDate_dot_encoding_diverges :
    parseDate (.str "1990-01-15") = some "1990-01-15"
  ∧ parseDate (.str "01/15/1990") = some "1990-01-15"
  ∧ parseDate (.str "01-15-1990") = some "1990-01-15"
  ∧ parseDate (.num 32888) = some "1990-01-15"
  ∧ parseDate (.str "15.01.1990") = none
  ∧ parseDate (.str "05.01.1990") = some "1990-05-01"
  ∧ parseDate (.str "1990-01-05") = some "1990-01-05"
  ∧ parseDate (.str "") = none
  ∧ parseDate (.str "not a date") = none
  ∧ parseDate .empty = none := by
  decide

/-- Association-list lookup only returns stored pairs. -/
theorem lookup_mem {α β : Type} [BEq α] [LawfulBEq α] {l : List (α × β)}
    {k : α} {v : β} (h : l.lookup k = some v) : (k, v) ∈ l := by
  induction l with
  | nil => simp [List.lookup] at h
  | cons p rest ih =>
    obtain ⟨k', v'⟩ := p
    rw [List.lookup] at h
    rcases hk : k == k' with _ | _
    · rw [hk] at h
      exact List.mem_cons_of_mem _ (ih h)
    · rw [hk] at h
      obtain rfl := eq_of_beq hk
      obtain rfl : v' = v := by injection h
      exact List.mem_cons_self _ _

/-- Every key of `columnMappings` is already lowercase and trimmed, so the
canonical spelling normalizes to itself. -/
theorem columnMappings_keys_normalized :
    ∀ p ∈ columnMappings, jsTrim (jsToLower p.1) = p.1 := by
  decide

/-- C5 counterexample: the claim lists `"birth date"` (with a space) among
the covered birthday synonyms, but the table only contains `birth_date`,
`birthdate` and `date of birth`; the header `"birth date"` maps to
nothing. -/
theorem columnMapper_birth_date_unmapped :
    normalizeColumnName "birth date" = none
  ∧ normalizeColumnName "Birth Date" = none
  ∧ normalizeColumnName "birth_date" = some .birthday
  ∧ normalizeColumnName "dob" = some .birthday := by
  decide

/-- C5 (amended): any header that lowercases-and-trims to a table key maps
to the same canonical field as the canonical spelling does, the table
covers the claimed fields — with the birthday synonyms `birth_date`,
`birthdate`, `date of birth` and `dob` (not `"birth date"`) — and an
unknown header yields no mapping. -/
theorem columnMapper_insensitive_and_covers :
    (∀ s key f, columnMappings.lookup key = some f →
      jsTrim (jsToLower s) = key →
      normalizeColumnName s = some f ∧ normalizeColumnName key = some f)
  ∧ normalizeColumnName "first name" = some .firstName
  ∧ normalizeColumnName "last name" = some .lastName
  ∧ normalizeColumnName "email" = some .email
  ∧ normalizeColumnName "phone" = some .phone
  ∧ normalizeColumnName "telephone" = some .phone
  ∧ normalizeColumnName "mobile" = some .phone
  ∧ normalizeColumnName "address" = some .address
  ∧ normalizeColumnName "birthday" = some .birthday
  ∧ normalizeColumnName "birth_date" = some .birthday
  ∧ normalizeColumnName "birthdate" = some .birthday
  ∧ normalizeColumnName "date of birth" = some .birthday
  ∧ normalizeColumnName "dob" = some .birthday
  ∧ normalizeColumnName "marital status" = some .maritalStatus
  ∧ normalizeColumnName "status" = some .status
  ∧ normalizeColumnName "cell group name" = some .cellGroupName
  ∧ normalizeColumnName "cell group" = some .cellGroupName
  ∧ normalizeColumnName "brought by" = some .broughtBy
  ∧ normalizeColumnName "referred by" = some .broughtBy
  ∧ normalizeColumnName "notes" = some .notes
  ∧ normalizeColumnName "Completely Unknown Header" = none := by
  refine ⟨?_, by decide⟩
  intro s key f hk hs
  constructor
  · unfold normalizeColumnName
    rw [hs]
    exact hk
  · unfold normalizeColumnName
    rw [columnMappings_keys_normalized _ (lookup_mem hk)]
    exact hk

/-- C5 witness: the insensitivity clause applied to a decorated spelling of
`first name`. -/
theorem columnMapper_insensitive_witness :
    normalizeColumnName "  FIRST Name " = some Field.firstName :=
  (columnMapper_insensitive_and_covers.1 "  FIRST Name " "first name"
    Field.firstName (by decide) (by decide)).1

/-- The three staged overwrites of `checkDuplicates` collapse to a single
priority cascade. -/
theorem dupInfoFor_eq_cascade (db : List Member) (row : ImportedMember) :
    dupInfoFor db row =
      match emailProbe db row with
      | some m => matchInfo .email m
      | none =>
        match phoneProbe db row with
        | some m => matchInfo .phone m
        | none =>
          match nameBirthdayProbe db row with
          | some m => matchInfo .name_birthday m
          | none => { isMatch := false } := by
  unfold dupInfoFor
  cases emailProbe db row <;> cases phoneProbe db row <;>
    cases nameBirthdayProbe db row <;> simp [matchInfo]

/-- C2: the duplicate matcher probes the directory in the strict priority
email, then phone, then name+birthday, stopping at the first hit: an email
hit always reports match type `email`; `phone` is only ever reported when
the email probe missed; `name_birthday` only when both stronger probes
missed; and a row matching no criterion is annotated `isMatch := false`
with no match type.  `checkDuplicates` annotates every row this way. -/
theorem checkDuplicates_priority (db : List Member)
    (rows : List ImportedMember) (row : ImportedMember) :
    ((emailProbe db row).isSome →
      (dupInfoFor db row).isMatch = true
        ∧ (dupInfoFor db row).matchType = some .email)
  ∧ ((dupInfoFor db row).matchType = some .phone →
      emailProbe db row = none ∧ (phoneProbe db row).isSome)
  ∧ ((dupInfoFor db row).matchType = some .name_birthday →
      emailProbe db row = none ∧ phoneProbe db row = none
        ∧ (nameBirthdayProbe db row).isSome)
  ∧ (emailProbe db row = none → phoneProbe db row = none →
      nameBirthdayProbe db row = none →
      dupInfoFor db row = { isMatch := false })
  ∧ (checkDuplicates db rows).map (fun r => r.duplicateInfo)
      = rows.map (dupInfoFor db) := by
  refine ⟨?_, ?_, ?_, ?_, ?_⟩
  · intro h
    rw [dupInfoFor_eq_cascade]
    cases he : emailProbe db row
    · rw [he] at h
      simp at h
    · simp [matchInfo]
  · intro h
    rw [dupInfoFor_eq_cascade] at h
    cases he : emailProbe db row <;> rw [he] at h
    · cases hp : phoneProbe db row <;> rw [hp] at h
      · cases hnb : nameBirthdayProbe db row <;> rw [hnb] at h <;>
          simp [matchInfo] at h
      · simp
    · simp [matchInfo] at h
  · intro h
    rw [dupInfoFor_eq_cascade] at h
    cases he : emailProbe db row <;> rw [he] at h
    · cases hp : phoneProbe db row <;> rw [hp] at h
      · cases hnb : nameBirthdayProbe db row <;> rw [hnb] at h
        · simp at h
        · simp
      · simp [matchInfo] at h
    · simp [matchInfo] at h
  · intro he hp hnb
    rw [dupInfoFor_eq_cascade, he, hp, hnb]
  · simp only [checkDuplicates, List.map_map]
    rfl

/-- C2 witness: a row whose email and phone both occur in the directory is
reported as an `email` match. -/
theorem checkDuplicates_priority_witness :
    (dupInfoFor sampleDb rowAnnEmail).isMatch = true
      ∧ (dupInfoFor sampleDb rowAnnEmail).matchType = some MatchType.email :=
  (checkDuplicates_priority sampleDb [] rowAnnEmail).1 (by decide)

/-- C4: per-row error containment in the commit loop.  A skip-set index
only increments `skipped`; an empty first or last name increments
`skipped` and appends a row-numbered error; a directory failure while
resolving or applying the row is caught, recorded as a row-numbered error
and counted as `skipped`, leaving the directory untouched — and in every
case the loop simply continues with the next row, as the final equation
shows. -/
theorem commitRow_isolates_failures (cellGroups : List (String × Nat))
    (fail : FailOracle) (skippedSet : Nat → Bool) (st : CommitState)
    (i : Nat) (row : ImportedMember) (rest : List ImportedMember)
    (msg : String) :
    (skippedSet i = true →
      commitRow cellGroups fail skippedSet st i row
        = { st with
            skipped := st.skipped + 1,
            trace := st.trace ++ [.skippedRow] })
  ∧ (skippedSet i = false → (row.firstName = "" ∨ row.lastName = "") →
      commitRow cellGroups fail skippedSet st i row
        = { st with
            skipped := st.skipped + 1,
            commitErrors := st.commitErrors
              ++ ["Row " ++ toString (i + 1)
                  ++ ": Missing first or last name"],
            trace := st.trace ++ [.skippedRow] })
  ∧ (skippedSet i = false → row.firstName ≠ "" → row.lastName ≠ "" →
      fail i = some msg →
      commitRow cellGroups fail skippedSet st i row
        = { st with
            skipped := st.skipped + 1,
            commitErrors := st.commitErrors
              ++ ["Row " ++ toString (i + 1) ++ ": " ++ msg],
            trace := st.trace ++ [.skippedRow] })
  ∧ commitLoop cellGroups fail skippedSet i st (row :: rest)
      = commitLoop cellGroups fail skippedSet (i + 1)
          (commitRow cellGroups fail skippedSet st i row) rest := by
  refine ⟨?_, ?_, ?_, rfl⟩
  · intro h
    simp [commitRow, h]
  · intro h hname
    have hb : (row.firstName == "" || row.lastName == "") = true := by
      rcases hname with h1 | h1 <;> simp [h1]
    simp [commitRow, h, hb]
  · intro h h1 h2 hf
    have hb : (row.firstName == "" || row.lastName == "") = false := by
      simp [h1, h2]
    simp [commitRow, h, hb, hf]

/-- C4 witness: the three containment clauses evaluated on concrete rows. -/
theorem commitRow_isolates_failures_witness :
    commitRow [] (fun _ => none) (fun j => j == 0)
        { db := sampleDb, nextId := 2 } 0 rowNewGuy
      = { db := sampleDb, nextId := 2, skipped := 1,
          trace := [.skippedRow] }
  ∧ commitRow [] (fun _ => some "db down") (fun _ => false)
        { db := sampleDb, nextId := 2 } 4 rowNewGuy
      = { db := sampleDb, nextId := 2, skipped := 1,
          commitErrors := ["Row 5: db down"], trace := [.skippedRow] } := by
  constructor
  · exact (commitRow_isolates_failures [] (fun _ => none) (fun j => j == 0)
      { db := sampleDb, nextId := 2 } 0 rowNewGuy [] "").1 (by decide)
  · exact (commitRow_isolates_failures [] (fun _ => some "db down")
      (fun _ => false) { db := sampleDb, nextId := 2 } 4 rowNewGuy []
      "db down").2.2.1 (by decide) (by decide) (by decide) (by decide)

/-- Each processed row adds exactly one to the sum of the three counters. -/
theorem commitRow_counts_one (cellGroups : List (String × Nat))
    (fail : FailOracle) (skippedSet : Nat → Bool) (st : CommitState)
    (i : Nat) (row : ImportedMember) :
    (commitRow cellGroups fail skippedSet st i row).created
        + (commitRow cellGroups fail skippedSet st i row).updated
        + (commitRow cellGroups fail skippedSet st i row).skipped
      = st.created + st.updated + st.skipped + 1 := by
  by_cases h1 : skippedSet i = true
  · simp [commitRow, h1]
    omega
  · by_cases h2 : (row.firstName == "" || row.lastName == "") = true
    · simp [commitRow, h1, h2]
      omega
    · cases hf : fail i with
      | some msg =>
        simp [commitRow, h1, h2, hf]
        omega
      | none =>
        cases hfind : findExistingMember st.db row with
        | some m =>
          simp [commitRow, h1, h2, hf, hfind]
          omega
        | none =>
          simp [commitRow, h1, h2, hf, hfind]
          omega

/-- The counter sum over a whole loop run grows by the number of rows. -/
theorem commitLoop_counts (cellGroups : List (String × Nat))
    (fail : FailOracle) (skippedSet : Nat → Bool) :
    ∀ (rows : List ImportedMember) (i : Nat) (st : CommitState),
      (commitLoop cellGroups fail skippedSet i st rows).created
          + (commitLoop cellGroups fail skippedSet i st rows).updated
          + (commitLoop cellGroups fail skippedSet i st rows).skipped
        = st.created + st.updated + st.skipped + rows.length := by
  intro rows
  induction rows with
  | nil =>
    intro i st
    simp [commitLoop]
  | cons r rest ih =>
    intro i st
    have hr := commitRow_counts_one cellGroups fail skippedSet st i r
    simp only [commitLoop, ih, List.length_cons]
    omega

/-- C10: every processed row increments exactly one of the three counters
(their sum grows by one per row), so a finished commit loop satisfies
`created + updated + skipped = rows.length` and in particular
`skipped ≤ rows.length`; the skip list enters only through the per-index
membership test `skippedIndices.contains i`, so duplicate or out-of-range
entries cannot inflate `skipped` beyond the row count. -/
theorem commit_counters_partition (cellGroups : List (String × Nat))
    (fail : FailOracle) (skippedIndices : List Nat)
    (rows : List ImportedMember) (db : List Member) (nid : Nat) :
    ((commitLoop cellGroups fail (fun i => skippedIndices.contains i) 0
          { db := db, nextId := nid } rows).created
        + (commitLoop cellGroups fail (fun i => skippedIndices.contains i) 0
            { db := db, nextId := nid } rows).updated
        + (commitLoop cellGroups fail (fun i => skippedIndices.contains i) 0
            { db := db, nextId := nid } rows).skipped
      = rows.length)
  ∧ (commitLoop cellGroups fail (fun i => skippedIndices.contains i) 0
        { db := db, nextId := nid } rows).skipped ≤ rows.length
  ∧ (∀ (st : CommitState) (i : Nat) (row : ImportedMember),
      (commitRow cellGroups fail (fun i => skippedIndices.contains i)
            st i row).created
          + (commitRow cellGroups fail (fun i => skippedIndices.contains i)
              st i row).updated
          + (commitRow cellGroups fail (fun i => skippedIndices.contains i)
              st i row).skipped
        = st.created + st.updated + st.skipped + 1) := by
  have h := commitLoop_counts cellGroups fail
    (fun i => skippedIndices.contains i) rows 0 { db := db, nextId := nid }
  simp only [Nat.zero_add] at h
  refine ⟨by omega, by omega, ?_⟩
  intro st i row
  exact commitRow_counts_one cellGroups fail
    (fun i => skippedIndices.contains i) st i row

/-- C3: the commit loop re-resolves an existing member from the directory
alone, in the priority email → phone → name+birthday (the row carries no
`DuplicateInfo`: it is stripped before the loop), and then updates when a
member was found and creates otherwise.  For a single non-skipped row with
nonempty names and no directory failure: an email hit gives
`updated = 1, created = 0`; no hit on any criterion gives
`created = 1, updated = 0`. -/
theorem commit_create_or_update (cellGroups : List (String × Nat))
    (db : List Member) (nid : Nat) (row : ImportedMember)
    (hfn : row.firstName ≠ "") (hln : row.lastName ≠ "") :
    ((emailProbe db row).isSome →
      (commitLoop cellGroups (fun _ => none) (fun _ => false) 0
          { db := db, nextId := nid } [row]).updated = 1
      ∧ (commitLoop cellGroups (fun _ => none) (fun _ => false) 0
          { db := db, nextId := nid } [row]).created = 0)
  ∧ (findExistingMember db row = none →
      (commitLoop cellGroups (fun _ => none) (fun _ => false) 0
          { db := db, nextId := nid } [row]).created = 1
      ∧ (commitLoop cellGroups (fun _ => none) (fun _ => false) 0
          { db := db, nextId := nid } [row]).updated = 0)
  ∧ ((emailProbe db row).isSome →
      findExistingMember db row = emailProbe db row)
  ∧ (emailProbe db row = none → (phoneProbe db row).isSome →
      findExistingMember db row = phoneProbe db row)
  ∧ (emailProbe db row = none → phoneProbe db row = none →
      findExistingMember db row = nameBirthdayProbe db row) := by
  have hb : (row.firstName == "" || row.lastName == "") = false := by
    simp [hfn, hln]
  refine ⟨?_, ?_, ?_, ?_, ?_⟩
  · intro he
    obtain ⟨m, hm⟩ := Option.isSome_iff_exists.mp he
    have hfind : findExistingMember db row = some m := by
      unfold findExistingMember
      rw [hm]
    simp [commitLoop, commitRow, hb, hfind]
  · intro hnone
    simp [commitLoop, commitRow, hb, hnone]
  · intro he
    obtain ⟨m, hm⟩ := Option.isSome_iff_exists.mp he
    unfold findExistingMember
    rw [hm]
  · intro he hp
    obtain ⟨m, hm⟩ := Option.isSome_iff_exists.mp hp
    unfold findExistingMember
    rw [he, hm]
  · intro he hp
    unfold findExistingMember
    rw [he, hp]

/-- C3 witness: against the sample directory, the row with a matching
email is an update; the fresh row is a create. -/
theorem commit_create_or_update_witness :
    ((commitLoop [] (fun _ => none) (fun _ => false) 0
        { db := sampleDb, nextId := 2 } [rowAnnEmail]).updated = 1
      ∧ (commitLoop [] (fun _ => none) (fun _ => false) 0
          { db := sampleDb, nextId := 2 } [rowAnnEmail]).created = 0)
  ∧ ((commitLoop [] (fun _ => none) (fun _ => false) 0
        { db := sampleDb, nextId := 2 } [rowNewGuy]).created = 1
      ∧ (commitLoop [] (fun _ => none) (fun _ => false) 0
          { db := sampleDb, nextId := 2 } [rowNewGuy]).updated = 0) := by
  constructor
  · exact (commit_create_or_update [] sampleDb 2 rowAnnEmail (by decide)
      (by decide)).1 (by decide)
  · exact (commit_create_or_update [] sampleDb 2 rowNewGuy (by decide)
      (by decide)).2.1 (by decide)

/-- The tabular row loop emits one member per raw row, in order. -/
theorem parseRowsLoop_rows (fieldMap : List (String × Field)) :
    ∀ (rawData : List RawRow) (i0 : Nat),
      (parseRowsLoop fieldMap i0 rawData).rows
        = rawData.map (buildMemberFromRow fieldMap) := by
  intro rawData
  induction rawData with
  | nil => intro i0; rfl
  | cons r rest ih =>
    intro i0
    simp [parseRowsLoop, ih]

/-- A raw row whose built member has issues contributes an error entry at
its absolute index. -/
theorem parseRowsLoop_errors_mem (fieldMap : List (String × Field)) :
    ∀ (rawData : List RawRow) (i0 j : Nat), j < rawData.length →
      rowIssues (buildMemberFromRow fieldMap (rawData.getD j [])) ≠ [] →
      (⟨i0 + j, rowIssues (buildMemberFromRow fieldMap (rawData.getD j []))⟩
          : ParseError)
        ∈ (parseRowsLoop fieldMap i0 rawData).errors := by
  intro rawData
  induction rawData with
  | nil =>
    intro i0 j hj
    simp at hj
  | cons r rest ih =>
    intro i0 j hj hne
    cases j with
    | zero =>
      simp only [List.getD_cons_zero] at hne ⊢
      simp only [parseRowsLoop, Nat.add_zero]
      rw [if_pos hne]
      exact List.mem_cons_self _ _
    | succ j' =>
      simp only [List.getD_cons_succ] at hne ⊢
      have hmem := ih (i0 + 1) j' (by simpa using hj) hne
      have harith : i0 + (j' + 1) = (i0 + 1) + j' := by omega
      rw [harith]
      simp only [parseRowsLoop]
      split
      · exact List.mem_cons_of_mem _ hmem
      · exact hmem

/-- The structured-text row loop emits one member per data line, in
order. -/
theorem parseTextRowsLoop_rows (sep : Sep) (fieldMap : List (Nat × Field)) :
    ∀ (dataLines : List String) (i0 : Nat),
      (parseTextRowsLoop sep fieldMap i0 dataLines).rows
        = dataLines.map fun line =>
            buildMemberFromParts fieldMap ((splitBySep sep line).map jsTrim) := by
  intro dataLines
  induction dataLines with
  | nil => intro i0; rfl
  | cons l rest ih =>
    intro i0
    simp [parseTextRowsLoop, ih]

/-- A data line whose built member has issues contributes an error entry
at its zero-based data-row offset. -/
theorem parseTextRowsLoop_errors_mem (sep : Sep)
    (fieldMap : List (Nat × Field)) :
    ∀ (dataLines : List String) (i0 j : Nat), j < dataLines.length →
      rowIssues (buildMemberFromParts fieldMap
          ((splitBySep sep (dataLines.getD j "")).map jsTrim)) ≠ [] →
      (⟨i0 + j, rowIssues (buildMemberFromParts fieldMap
            ((splitBySep sep (dataLines.getD j "")).map jsTrim))⟩
          : ParseError)
        ∈ (parseTextRowsLoop sep fieldMap i0 dataLines).errors := by
  intro dataLines
  induction dataLines with
  | nil =>
    intro i0 j hj
    simp at hj
  | cons l rest ih =>
    intro i0 j hj hne
    cases j with
    | zero =>
      simp only [List.getD_cons_zero] at hne ⊢
      simp only [parseTextRowsLoop, Nat.add_zero]
      rw [if_pos hne]
      exact List.mem_cons_self _ _
    | succ j' =>
      simp only [List.getD_cons_succ] at hne ⊢
      have hmem := ih (i0 + 1) j' (by simpa using hj) hne
      have harith : i0 + (j' + 1) = (i0 + 1) + j' := by omega
      rw [harith]
      simp only [parseTextRowsLoop]
      split
      · exact List.mem_cons_of_mem _ hmem
      · exact hmem

/-- C6: both extractors are total over their rows: every raw row / data
line is emitted as a record, in document order, and a row whose first or
last name is empty after trimming yields an error entry at that row's
zero-based index with at least one issue — it is reported, not dropped,
and later rows are still processed (the output maps over the whole
input). -/
theorem extractors_total_with_row_errors :
    (∀ m : ImportedMember,
      rowIssues m ≠ [] ↔ (m.firstName = "" ∨ m.lastName = ""))
  ∧ (∀ rawData : List RawRow,
      (parseExcelOrCsv rawData).rows
        = rawData.map (buildMemberFromRow (excelFieldMap rawData)))
  ∧ (∀ (rawData : List RawRow) (j : Nat), j < rawData.length →
      ((buildMemberFromRow (excelFieldMap rawData)
          (rawData.getD j [])).firstName = ""
        ∨ (buildMemberFromRow (excelFieldMap rawData)
            (rawData.getD j [])).lastName = "") →
      ∃ e ∈ (parseExcelOrCsv rawData).errors,
        e.rowIndex = j ∧ e.issues ≠ [])
  ∧ (∀ (sep : Sep) (fieldMap : List (Nat × Field))
        (dataLines : List String),
      (parseTextRowsLoop sep fieldMap 0 dataLines).rows
        = dataLines.map fun line =>
            buildMemberFromParts fieldMap ((splitBySep sep line).map jsTrim))
  ∧ (∀ (sep : Sep) (fieldMap : List (Nat × Field))
        (dataLines : List String) (j : Nat), j < dataLines.length →
      ((buildMemberFromParts fieldMap
          ((splitBySep sep (dataLines.getD j "")).map jsTrim)).firstName = ""
        ∨ (buildMemberFromParts fieldMap
            ((splitBySep sep (dataLines.getD j "")).map jsTrim)).lastName
            = "") →
      ∃ e ∈ (parseTextRowsLoop sep fieldMap 0 dataLines).errors,
        e.rowIndex = j ∧ e.issues ≠ []) := by
  have hiff : ∀ m : ImportedMember,
      rowIssues m ≠ [] ↔ (m.firstName = "" ∨ m.lastName = "") := by
    intro m
    unfold rowIssues
    by_cases h1 : m.firstName = "" <;> by_cases h2 : m.lastName = "" <;>
      simp [h1, h2]
  refine ⟨hiff, ?_, ?_, ?_, ?_⟩
  · intro rawData
    cases rawData with
    | nil => rfl
    | cons r rest => exact parseRowsLoop_rows _ _ 0
  · intro rawData j hj hnames
    have hne := (hiff _).mpr hnames
    cases rawData with
    | nil => simp at hj
    | cons r rest =>
      have hmem := parseRowsLoop_errors_mem (excelFieldMap (r :: rest))
        (r :: rest) 0 j hj hne
      exact ⟨_, by simpa using hmem, by simp, by simpa using hne⟩
  · intro sep fieldMap dataLines
    exact parseTextRowsLoop_rows sep fieldMap dataLines 0
  · intro sep fieldMap dataLines j hj hnames
    have hne := (hiff _).mpr hnames
    have hmem := parseTextRowsLoop_errors_mem sep fieldMap dataLines 0 j hj
      hne
    exact ⟨_, by simpa using hmem, by simp, by simpa using hne⟩

/-- C6 witness: a spreadsheet row with an empty first name is still
emitted and carries an error at index 0; likewise for a structured text
line with a missing first-name column. -/
theorem extractors_total_witness :
    (∃ e ∈ (parseExcelOrCsv [[("First Name", Cell.str ""),
        ("Last Name", Cell.str "Doe")]]).errors,
      e.rowIndex = 0 ∧ e.issues ≠ [])
  ∧ (∃ e ∈ (parseTextRowsLoop Sep.comma [(0, Field.firstName),
        (1, Field.lastName)] 0 [", Doe"]).errors,
      e.rowIndex = 0 ∧ e.issues ≠ []) :=
  ⟨extractors_total_with_row_errors.2.2.1 _ 0 (by decide) (by decide),
   extractors_total_with_row_errors.2.2.2.2 Sep.comma _ _ 0 (by decide)
     (by decide)⟩

/-- The header scan never looks past its fuel, which `findHeader` fixes
at 5 lines. -/
theorem findHeader_go_take :
    ∀ (fuel i : Nat) (ls : List String),
      findHeader.go i fuel ls = findHeader.go i fuel (ls.take fuel) := by
  intro fuel
  induction fuel with
  | zero =>
    intro i ls
    cases ls <;> rfl
  | succ f ih =>
    intro i ls
    cases ls with
    | nil => rfl
    | cons l rest =>
      simp only [List.take_succ_cons]
      by_cases hk : headerKeyword l
      · cases hs : findSeparator l with
        | some pr => simp [findHeader.go, hk, hs]
        | none => simp [findHeader.go, hk, hs, ih (i + 1) rest]
      · simp [findHeader.go, hk, ih (i + 1) rest]

/-- The separator accepted for a header line is the first of
tab, comma, two-plus-spaces, pipe that yields at least two nonempty
parts. -/
theorem findSeparator_priority (line : String) (sep : Sep)
    (parts : List String) (h : findSeparator line = some (sep, parts)) :
    parts = headerParts sep line ∧ 2 ≤ parts.length
  ∧ (sep ≠ .tab → (headerParts .tab line).length < 2)
  ∧ ((sep = .spaces ∨ sep = .pipe) → (headerParts .comma line).length < 2)
  ∧ (sep = .pipe → (headerParts .spaces line).length < 2) := by
  by_cases h1 : 2 ≤ (headerParts .tab line).length
  · have he : findSeparator line = some (.tab, headerParts .tab line) := by
      unfold findSeparator separatorPatterns
      simp [List.find?, h1]
    rw [he] at h
    injection h with h'
    injection h' with hsep hparts
    subst hsep
    subst hparts
    exact ⟨rfl, h1, fun hc => absurd rfl hc, by simp, by simp⟩
  · by_cases h2 : 2 ≤ (headerParts .comma line).length
    · have he : findSeparator line
          = some (.comma, headerParts .comma line) := by
        unfold findSeparator separatorPatterns
        simp [List.find?, h1, h2]
      rw [he] at h
      injection h with h'
      injection h' with hsep hparts
      subst hsep
      subst hparts
      refine ⟨rfl, h2, fun _ => by omega, by simp, by simp⟩
    · by_cases h3 : 2 ≤ (headerParts .spaces line).length
      · have he : findSeparator line
            = some (.spaces, headerParts .spaces line) := by
          unfold findSeparator separatorPatterns
          simp [List.find?, h1, h2, h3]
        rw [he] at h
        injection h with h'
        injection h' with hsep hparts
        subst hsep
        subst hparts
        refine ⟨rfl, h3, fun _ => by omega, fun _ => by omega, by simp⟩
      · by_cases h4 : 2 ≤ (headerParts .pipe line).length
        · have he : findSeparator line
              = some (.pipe, headerParts .pipe line) := by
            unfold findSeparator separatorPatterns
            simp [List.find?, h1, h2, h3, h4]
          rw [he] at h
          injection h with h'
          injection h' with hsep hparts
          subst hsep
          subst hparts
          exact ⟨rfl, h4, fun _ => by omega, fun _ => by omega,
            fun _ => by omega⟩
        · exfalso
          have he : findSeparator line = none := by
            unfold findSeparator separatorPatterns
            simp [List.find?, h1, h2, h3, h4]
          rw [he] at h
          exact Option.noConfusion h

/-- With no header found and no name-shaped line, the heuristic extractor
returns zero rows and the single index-0 error. -/
theorem parseTextToMembers_fallback_empty (text : String)
    (hh : findHeader (((splitOnChar '\n' text).map jsTrim).filter
        (fun l => l.data.length > 0)) = none)
    (hn : ∀ l ∈ ((splitOnChar '\n' text).map jsTrim).filter
        (fun l => l.data.length > 0), matchNameStart l = none) :
    parseTextToMembers text
      = ⟨[], [⟨0, ["Could not parse any member records from text"]⟩]⟩ := by
  have hrows : (((splitOnChar '\n' text).map jsTrim).filter
      (fun l => l.data.length > 0)).filterMap fallbackLine = [] := by
    rw [List.filterMap_eq_nil_iff]
    intro l hl
    unfold fallbackLine
    rw [hn l hl]
    rfl
  unfold parseTextToMembers
  simp only [hh, hrows, List.isEmpty_nil, if_true]

/-- C9: the heuristic extractor scans only the first 5 non-empty trimmed
lines for a header; for a keyword line it accepts the first separator in
the priority tab, quote-respecting comma, two-or-more spaces, pipe that
splits the line into at least two nonempty parts; and when no header is
found and per-line scraping yields nothing, the result is zero rows with
exactly one error at index 0 saying no records could be parsed. -/
theorem heuristic_extractor_scan_spec :
    (∀ lines : List String, findHeader lines = findHeader (lines.take 5))
  ∧ (∀ (line : String) (sep : Sep) (parts : List String),
      findSeparator line = some (sep, parts) →
      parts = headerParts sep line ∧ 2 ≤ parts.length
      ∧ (sep ≠ .tab → (headerParts .tab line).length < 2)
      ∧ ((sep = .spaces ∨ sep = .pipe) →
          (headerParts .comma line).length < 2)
      ∧ (sep = .pipe → (headerParts .spaces line).length < 2))
  ∧ (∀ text : String,
      findHeader (((splitOnChar '\n' text).map jsTrim).filter
          (fun l => l.data.length > 0)) = none →
      (∀ l ∈ ((splitOnChar '\n' text).map jsTrim).filter
          (fun l => l.data.length > 0), matchNameStart l = none) →
      parseTextToMembers text
        = ⟨[], [⟨0, ["Could not parse any member records from text"]⟩]⟩) :=
  ⟨fun lines => findHeader_go_take 5 0 lines,
   findSeparator_priority,
   parseTextToMembers_fallback_empty⟩

/-- C9 witness: the separator-priority clause on a comma-separated header
line (tab fails, comma wins), and the empty-fallback clause on a blob with
neither header keywords nor name-shaped content. -/
theorem heuristic_extractor_scan_witness :
    ((headerParts Sep.comma "First Name, Last Name"
        = headerParts Sep.comma "First Name, Last Name"
      ∧ 2 ≤ (headerParts Sep.comma "First Name, Last Name").length)
      ∧ (headerParts Sep.tab "First Name, Last Name").length < 2)
  ∧ parseTextToMembers "hello\nworld"
      = ⟨[], [⟨0, ["Could not parse any member records from text"]⟩]⟩ := by
  constructor
  · have h := heuristic_extractor_scan_spec.2.1 "First Name, Last Name"
      Sep.comma (headerParts Sep.comma "First Name, Last Name") (by decide)
    exact ⟨⟨h.1 ▸ rfl, h.2.1⟩, h.2.2.1 (by decide)⟩
  · exact heuristic_extractor_scan_spec.2.2 "hello\nworld" (by decide)
      (by decide)

/-- Updating one session's status commutes with looking that session up. -/
theorem lookup_setImportStatus (imports : List (Nat × ImportRecord))
    (id : Nat) (status : ImportStatus) :
    (setImportStatus imports id status).lookup id
      = (imports.lookup id).map fun r => { r with status := status } := by
  induction imports with
  | nil => rfl
  | cons p rest ih =>
    obtain ⟨k, r⟩ := p
    simp only [setImportStatus, List.map_cons]
    by_cases hk : (k == id) = true
    · rw [if_pos hk]
      have hk2 : (id == k) = true := beq_iff_eq.mpr (beq_iff_eq.mp hk).symm
      simp only [List.lookup, hk2]
      rfl
    · rw [if_neg hk]
      have hk2 : (id == k) = false := by
        rw [beq_eq_false_iff_ne]
        exact fun h => hk (beq_iff_eq.mpr h.symm)
      simp only [List.lookup, hk2]
      simpa [setImportStatus] using ih

/-- C7: a commit attempt on a missing session, or on a session whose
status is not `parsed` (in particular one already committed), is rejected
with the server state unchanged; a successful commit sets the session
status to `committed` and deletes the uploaded file, after which any
further commit attempt on that session is rejected with no state change —
a session is never committed twice. -/
theorem commit_rejected_unless_parsed (fail : FailOracle)
    (sys : ServerState) (importId : Nat)
    (providedRows : Option (List ImportedMember))
    (skippedIndices : List Nat) :
    (∀ rec, sys.imports.lookup importId = some rec →
      rec.status ≠ .parsed →
      commitEndpoint fail sys importId providedRows skippedIndices
        = (.notParsed, sys))
  ∧ (sys.imports.lookup importId = none →
      commitEndpoint fail sys importId providedRows skippedIndices
        = (.importNotFound, sys))
  ∧ (∀ c u s errs sys',
      commitEndpoint fail sys importId providedRows skippedIndices
        = (.committed c u s errs, sys') →
      ((sys'.imports.lookup importId).map fun r => r.status)
          = some .committed
      ∧ (∀ rec, sys.imports.lookup importId = some rec →
          rec.filePath ∉ sys'.files)
      ∧ (∀ (fail2 : FailOracle) rows2 sk2,
          commitEndpoint fail2 sys' importId rows2 sk2
            = (.notParsed, sys'))) := by
  refine ⟨?_, ?_, ?_⟩
  · intro rec hrec hst
    unfold commitEndpoint
    rw [hrec]
    simp [hst]
  · intro h
    unfold commitEndpoint
    rw [h]
  · intro c u s errs sys' h
    cases hl : sys.imports.lookup importId with
    | none =>
      unfold commitEndpoint at h
      rw [hl] at h
      simp [Prod.ext_iff] at h
    | some rec =>
      by_cases hst : rec.status = ImportStatus.parsed
      · unfold commitEndpoint at h
        rw [hl] at h
        simp only [hst, ne_eq, not_true_eq_false, if_false] at h
        by_cases he :
            ((providedRows.getD rec.parsedData).length == 0) = true
        · rw [if_pos he] at h
          simp [Prod.ext_iff] at h
        · rw [if_neg he] at h
          rw [Prod.mk.injEq] at h
          obtain ⟨-, rfl⟩ := h
          refine ⟨?_, ?_, ?_⟩
          · simp [lookup_setImportStatus, hl]
          · intro rec2 hrec2
            obtain rfl : rec = rec2 := Option.some.inj hrec2
            simp [List.mem_filter]
          · intro fail2 rows2 sk2
            unfold commitEndpoint
            simp [lookup_setImportStatus, hl]
      · unfold commitEndpoint at h
        rw [hl] at h
        simp only [if_pos hst] at h
        simp [hst, Prod.ext_iff] at h

/-- C7 witness: committing the sample parsed session marks it committed
and a second commit on the resulting state is rejected unchanged. -/
theorem commit_rejected_unless_parsed_witness :
    ((((commitEndpoint (fun _ => none) sampleSys 7 (some [rowNewGuy])
          []).2).imports.lookup 7).map fun r => r.status)
      = some ImportStatus.committed
  ∧ commitEndpoint (fun _ => none)
        (commitEndpoint (fun _ => none) sampleSys 7 (some [rowNewGuy]) []).2
        7 none []
      = (.notParsed,
        (commitEndpoint (fun _ => none) sampleSys 7 (some [rowNewGuy])
          []).2) := by
  have h := (commit_rejected_unless_parsed (fun _ => none) sampleSys 7
    (some [rowNewGuy]) []).2.2 1 0 0 []
    (commitEndpoint (fun _ => none) sampleSys 7 (some [rowNewGuy]) []).2
    (by decide)
  exact ⟨h.1, h.2.2 (fun _ => none) none []⟩

/-- Each iteration appends one trace entry, `skippedRow` exactly when
`rowSkips` holds. -/
theorem commitRow_trace (cellGroups : List (String × Nat))
    (fail : FailOracle) (skippedSet : Nat → Bool) (st : CommitState)
    (i : Nat) (row : ImportedMember) :
    (commitRow cellGroups fail skippedSet st i row).trace
      = st.trace ++ [if rowSkips fail skippedSet i row then .skippedRow
          else if (findExistingMember st.db row).isSome then .updatedRow
          else .createdRow] := by
  cases hsk : skippedSet i with
  | true => simp [commitRow, rowSkips, hsk]
  | false =>
    cases hname : (row.firstName == "" || row.lastName == "") with
    | true => simp [commitRow, rowSkips, hsk, hname]
    | false =>
      cases hf : fail i with
      | some m => simp [commitRow, rowSkips, hsk, hname, hf]
      | none =>
        cases hfind : findExistingMember st.db row with
        | some m => simp [commitRow, rowSkips, hsk, hname, hf, hfind]
        | none => simp [commitRow, rowSkips, hsk, hname, hf, hfind]

/-- A row with `rowSkips` set leaves `created`/`updated` unchanged and adds
one to `skipped`. -/
theorem commitRow_skipped_counters (cellGroups : List (String × Nat))
    (fail : FailOracle) (skippedSet : Nat → Bool) (st : CommitState)
    (i : Nat) (row : ImportedMember)
    (h : rowSkips fail skippedSet i row = true) :
    (commitRow cellGroups fail skippedSet st i row).created = st.created
  ∧ (commitRow cellGroups fail skippedSet st i row).updated = st.updated
  ∧ (commitRow cellGroups fail skippedSet st i row).skipped
      = st.skipped + 1 := by
  unfold rowSkips at h
  cases hsk : skippedSet i with
  | true => simp [commitRow, hsk]
  | false =>
    cases h1 : (row.firstName == "") with
    | true => simp [commitRow, hsk, h1]
    | false =>
      cases h2 : (row.lastName == "") with
      | true => simp [commitRow, hsk, h1, h2]
      | false =>
        rw [hsk, h1, h2] at h
        simp only [Bool.false_or] at h
        obtain ⟨m, hm⟩ := Option.isSome_iff_exists.mp h
        simp [commitRow, hsk, h1, h2, hm]

/-- The skip marks of a loop trace are exactly the per-index `rowSkips`
values. -/
theorem commitLoop_trace_marks (cellGroups : List (String × Nat))
    (fail : FailOracle) (skippedSet : Nat → Bool) :
    ∀ (rows : List ImportedMember) (i0 : Nat) (st : CommitState),
      (commitLoop cellGroups fail skippedSet i0 st rows).trace.map
          (fun t => t == RowOutcome.skippedRow)
        = st.trace.map (fun t => t == RowOutcome.skippedRow)
          ++ (List.range rows.length).map
              (fun j => rowSkips fail skippedSet (i0 + j)
                (rows.getD j default)) := by
  intro rows
  induction rows with
  | nil =>
    intro i0 st
    simp [commitLoop]
  | cons r rest ih =>
    intro i0 st
    rw [commitLoop, ih, commitRow_trace]
    rw [List.length_cons, List.range_succ_eq_map]
    simp only [List.map_cons, List.map_map, List.map_append,
      List.getD_cons_zero, Nat.add_zero, List.map_nil]
    rw [List.append_assoc]
    congr 1
    simp only [List.singleton_append]
    congr 1
    · by_cases hc : rowSkips fail skippedSet i0 r = true
      · simp [hc]
      · rw [Bool.not_eq_true] at hc
        rw [hc]
        simp only [if_false, Bool.false_eq]
        cases (findExistingMember st.db r).isSome <;> simp
    · apply List.map_congr_left
      intro j hj
      simp only [Function.comp_apply, Nat.succ_eq_add_one,
        List.getD_cons_succ]
      congr 1
      omega

/-- If every row index satisfies `rowSkips`, the loop only counts
skips. -/
theorem commitLoop_all_skipped (cellGroups : List (String × Nat))
    (fail : FailOracle) (skippedSet : Nat → Bool) :
    ∀ (rows : List ImportedMember) (i0 : Nat) (st : CommitState),
      (∀ j, j < rows.length →
        rowSkips fail skippedSet (i0 + j) (rows.getD j default) = true) →
      (commitLoop cellGroups fail skippedSet i0 st rows).created
          = st.created
      ∧ (commitLoop cellGroups fail skippedSet i0 st rows).updated
          = st.updated
      ∧ (commitLoop cellGroups fail skippedSet i0 st rows).skipped
          = st.skipped + rows.length := by
  intro rows
  induction rows with
  | nil =>
    intro i0 st hall
    simp [commitLoop]
  | cons r rest ih =>
    intro i0 st hall
    have h0 : rowSkips fail skippedSet i0 r = true := by
      have := hall 0 (by simp)
      simpa using this
    have hrest : ∀ j, j < rest.length →
        rowSkips fail skippedSet (i0 + 1 + j) (rest.getD j default)
          = true := by
      intro j hj
      have := hall (j + 1) (by simp; omega)
      rw [List.getD_cons_succ] at this
      have harith : i0 + 1 + j = i0 + (j + 1) := by omega
      rw [harith]
      exact this
    have hrow := commitRow_skipped_counters cellGroups fail skippedSet st
      i0 r h0
    have hloop := ih (i0 + 1)
      (commitRow cellGroups fail skippedSet st i0 r) hrest
    rw [commitLoop]
    refine ⟨?_, ?_, ?_⟩
    · rw [hloop.1, hrow.1]
    · rw [hloop.2.1, hrow.2.1]
    · rw [hloop.2.2, hrow.2.2, List.length_cons]
      omega

/-- C8: commit is idempotent with respect to `skippedIndices`.  If a first
failure-free commit run is replayed with a skip set that still contains
the old skip set and now additionally contains every index the first run
counted as created or updated (every non-`skippedRow` position of its
trace), then the second run — even under arbitrary directory failures —
creates nothing, updates nothing, and counts every row as skipped. -/
theorem commit_skip_idempotent (cellGroups : List (String × Nat))
    (rows : List ImportedMember) (db1 db2 : List Member) (nid1 nid2 : Nat)
    (skip1 skip2 : Nat → Bool) (fail2 : FailOracle)
    (hmono : ∀ j, skip1 j = true → skip2 j = true)
    (hcover : ∀ j, j < rows.length →
      (commitLoop cellGroups (fun _ => none) skip1 0
          { db := db1, nextId := nid1 } rows).trace.getD j .skippedRow
        ≠ .skippedRow → skip2 j = true) :
    (commitLoop cellGroups fail2 skip2 0
        { db := db2, nextId := nid2 } rows).created = 0
  ∧ (commitLoop cellGroups fail2 skip2 0
        { db := db2, nextId := nid2 } rows).updated = 0
  ∧ (commitLoop cellGroups fail2 skip2 0
        { db := db2, nextId := nid2 } rows).skipped = rows.length := by
  have hmarks := commitLoop_trace_marks cellGroups (fun _ => none) skip1
    rows 0 { db := db1, nextId := nid1 }
  simp only [Nat.zero_add, List.map_nil, List.nil_append] at hmarks
  -- trace length of run 1
  have hlen : (commitLoop cellGroups (fun _ => none) skip1 0
      { db := db1, nextId := nid1 } rows).trace.length = rows.length := by
    have := congrArg List.length hmarks
    simpa using this
  -- per-index: the trace mark equals rowSkips of run 1
  have hmark : ∀ j, j < rows.length →
      (((commitLoop cellGroups (fun _ => none) skip1 0
          { db := db1, nextId := nid1 } rows).trace.getD j .skippedRow)
        == RowOutcome.skippedRow)
      = rowSkips (fun _ => none) skip1 j (rows.getD j default) := by
    intro j hj
    have hjt : j < (commitLoop cellGroups (fun _ => none) skip1 0
        { db := db1, nextId := nid1 } rows).trace.length := by omega
    have h1 := congrArg (fun l => l[j]?) hmarks
    simp only [List.getElem?_map, List.getElem?_range hj,
      List.getElem?_eq_getElem hjt, Option.map_some'] at h1
    rw [List.getD_eq_getElem?_getD, List.getElem?_eq_getElem hjt,
      Option.getD_some]
    exact Option.some.inj h1
  -- every row of the second run skips
  have hall : ∀ j, j < rows.length →
      rowSkips fail2 skip2 (0 + j) (rows.getD j default) = true := by
    intro j hj
    rw [Nat.zero_add]
    by_cases hrun1 : rowSkips (fun _ => none) skip1 j (rows.getD j default)
        = true
    · unfold rowSkips at hrun1 ⊢
      rcases Bool.or_eq_true _ _ |>.mp hrun1 with h | h
      · rcases Bool.or_eq_true _ _ |>.mp h with h' | h'
        · rcases Bool.or_eq_true _ _ |>.mp h' with h'' | h''
          · rw [hmono j h'']
            simp
          · rw [h'']
            simp
        · rw [h']
          simp
      · simp at h
    · have hne : (commitLoop cellGroups (fun _ => none) skip1 0
            { db := db1, nextId := nid1 } rows).trace.getD j .skippedRow
          ≠ .skippedRow := by
        intro habs
        rw [← hmark j hj] at hrun1
        rw [habs] at hrun1
        simp at hrun1
      have hs2 := hcover j hj hne
      unfold rowSkips
      rw [hs2]
      simp
  have := commitLoop_all_skipped cellGroups fail2 skip2 rows 0
    { db := db2, nextId := nid2 } hall
  simpa using this

/-- C8 witness: replaying the two-row sample commit with both previously
processed indices in the skip set yields two skips and no writes. -/
theorem commit_skip_idempotent_witness :
    (commitLoop [] (fun _ => none) (fun _ => true) 0
        { db := sampleDb, nextId := 2 } [rowAnnEmail, rowNewGuy]).created
      = 0
  ∧ (commitLoop [] (fun _ => none) (fun _ => true) 0
        { db := sampleDb, nextId := 2 } [rowAnnEmail, rowNewGuy]).updated
      = 0
  ∧ (commitLoop [] (fun _ => none) (fun _ => true) 0
        { db := sampleDb, nextId := 2 } [rowAnnEmail, rowNewGuy]).skipped
      = 2 :=
  commit_skip_idempotent [] [rowAnnEmail, rowNewGuy] sampleDb sampleDb 2 2
    (fun _ => false) (fun _ => true) (fun _ => none)
    (fun _ _ => rfl) (fun _ _ _ => rfl)

end Goodbox
